import Mathlib

/-!
Verification of the BMS secure storage engine (`src/services/secure_database.py`,
`src/utils/compression.py`, `src/utils/encryption.py`).

The development shallowly embeds the secure codec pipeline: Python values are
modelled by the inductive type `Value` (the JSON-representable fragment used by
the application: `None`, booleans, integers, strings, lists, string-keyed
dicts); `json.dumps(..., ensure_ascii=False)` and `json.loads` from the Python
standard library are modelled by an executable printer `jsonDumps` and an
executable recursive-descent parser `jsonLoads`, with the printer/parser
round-trip proved.  The external byte-level libraries (Fernet encryption,
gzip/bzip2/lzma/zlib compression, base64) are modelled at the level of the
input/output contract the repository relies on: byte buffers are the inductive
type `Blob`, compression and encryption are constructors recording exactly the
information the real algorithms make recoverable, and each decoding direction
is a partial inverse that fails on buffers that are not in the image of the
corresponding encoder (matching the fact that Fernet rejects unauthenticated
tokens and the decompressors reject streams without their magic/framing).
-/

namespace BMS

/-- Python/JSON values as stored by the application: the argument type of
`SecureDatabaseManager._secure_data` and result type of `_unsecure_data`. -/
inductive Value where
  | null : Value
  | bool : Bool → Value
  | int : Int → Value
  | str : String → Value
  | list : List Value → Value
  | dict : List (String × Value) → Value

/-! ### Decimal printing and parsing (model of Python `str(int)` / JSON numbers) -/
/-- Decimal digits of a natural number, most significant first (model of the
digit sequence produced by Python `str` on a nonnegative `int`). -/
def natDecimal (n : Nat) : List Char :=
  if h : n < 10 then [Nat.digitChar n]
  else natDecimal (n / 10) ++ [Nat.digitChar (n % 10)]
  decreasing_by exact Nat.div_lt_self (by omega) (by omega)

/-- Model of Python `str` on an `int`: decimal digits with a leading minus sign
for negative numbers. -/
def intRepr (n : Int) : List Char :=
  if n < 0 then '-' :: natDecimal n.natAbs else natDecimal n.toNat

/-- Decimal digit test used by the JSON number parser. -/
def isDigitChar (c : Char) : Bool :=
  '0' ≤ c && c ≤ '9'

/-- Numeric value of a decimal digit character. -/
def digitVal (c : Char) : Nat := c.toNat - '0'.toNat

/-- Longest prefix of decimal digits together with the remaining input. -/
def takeDigits : List Char → (List Char × List Char)
  | [] => ([], [])
  | c :: cs =>
    if isDigitChar c then
      let (ds, rest) := takeDigits cs
      (c :: ds, rest)
    else ([], c :: cs)

/-- Value of a digit string, most significant digit first. -/
def digitsToNat (ds : List Char) : Nat :=
  ds.foldl (fun acc c => 10 * acc + digitVal c) 0

/-! ### JSON string escaping (model of `json.dumps` string output, `ensure_ascii=False`) -/
/-- Escape of one character inside a JSON string literal, exactly as CPython's
encoder emits it with `ensure_ascii=False`: `"` and `\` get a backslash, the
five short control escapes are used, remaining control characters become
`\u00xx` (lowercase hex), everything else is passed through. -/
def escapeChar (c : Char) : List Char :=
  if c = '"' then ['\\', '"']
  else if c = '\\' then ['\\', '\\']
  else if c = '\n' then ['\\', 'n']
  else if c = '\r' then ['\\', 'r']
  else if c = '\t' then ['\\', 't']
  else if c = '\x08' then ['\\', 'b']
  else if c = '\x0c' then ['\\', 'f']
  else if c.toNat < 32 then
    ['\\', 'u', '0', '0', Nat.digitChar (c.toNat / 16), Nat.digitChar (c.toNat % 16)]
  else [c]

/-- Characters of the escaped body of a JSON string literal. -/
def escapeString (s : String) : List Char :=
  s.data.foldr (fun c acc => escapeChar c ++ acc) []

/-- Characters of a quoted JSON string literal. -/
def quoteChars (s : String) : List Char :=
  '"' :: escapeString s ++ ['"']

/-! ### JSON serialization (model of `json.dumps(value, ensure_ascii=False)`) -/
mutual

/-- Characters of the JSON serialization of a value, with CPython's default
separators `", "` and `": "`. -/
def dumpsVal : Value → List Char
  | .null => 'n' :: 'u' :: 'l' :: 'l' :: []
  | .bool true => 't' :: 'r' :: 'u' :: 'e' :: []
  | .bool false => 'f' :: 'a' :: 'l' :: 's' :: 'e' :: []
  | .int n => intRepr n
  | .str s => quoteChars s
  | .list xs => '[' :: dumpsItems xs ++ [']']
  | .dict kvs => '{' :: dumpsMembers kvs ++ ['}']

/-- Comma-separated serialization of array elements. -/
def dumpsItems : List Value → List Char
  | [] => []
  | x :: xs => dumpsVal x ++ dumpsMoreItems xs

/-- Continuation of an array body: `", "` before each further element. -/
def dumpsMoreItems : List Value → List Char
  | [] => []
  | x :: xs => ',' :: ' ' :: dumpsVal x ++ dumpsMoreItems xs

/-- Comma-separated serialization of object members. -/
def dumpsMembers : List (String × Value) → List Char
  | [] => []
  | (k, v) :: kvs => quoteChars k ++ ':' :: ' ' :: dumpsVal v ++ dumpsMoreMembers kvs

/-- Continuation of an object body: `", "` before each further member. -/
def dumpsMoreMembers : List (String × Value) → List Char
  | [] => []
  | (k, v) :: kvs => ',' :: ' ' :: quoteChars k ++ ':' :: ' ' :: dumpsVal v ++ dumpsMoreMembers kvs

end

/-- Model of `json.dumps(v, ensure_ascii=False)`. -/
def jsonDumps (v : Value) : String :=
  String.mk (dumpsVal v)

/-! ### JSON parsing (model of `json.loads`)

The parser is a fueled recursive-descent parser over the character list.  It
covers the fragment of JSON representable by `Value`: it has no floating-point
numbers, so a number followed by `.`/`e`/`E` is rejected rather than parsed as
a float (CPython would return a `float`, which is outside the modelled value
space), and it accepts redundant leading zeros that CPython rejects; neither
difference is exercised by any theorem below. -/
/-- JSON whitespace test. -/
def isWsChar (c : Char) : Bool :=
  c = ' ' || c = '\t' || c = '\n' || c = '\r'

/-- Skip leading JSON whitespace. -/
def skipWs : List Char → List Char
  | [] => []
  | c :: cs => if isWsChar c then skipWs cs else c :: cs

/-- Value of a hexadecimal digit character, if any. -/
def hexVal (c : Char) : Option Nat :=
  let n := c.toNat
  if 48 ≤ n && n ≤ 57 then some (n - 48)
  else if 97 ≤ n && n ≤ 102 then some (n - 87)
  else if 65 ≤ n && n ≤ 70 then some (n - 55)
  else Option.none

/-- Single-character JSON escapes. -/
def unescapeChar (c : Char) : Option Char :=
  if c = '"' then some '"'
  else if c = '\\' then some '\\'
  else if c = '/' then some '/'
  else if c = 'n' then some '\n'
  else if c = 'r' then some '\r'
  else if c = 't' then some '\t'
  else if c = 'b' then some '\x08'
  else if c = 'f' then some '\x0c'
  else none

/-- Match a literal character sequence at the head of the input. -/
def dropLit : List Char → List Char → Option (List Char)
  | [], cs => some cs
  | _ :: _, [] => none
  | p :: ps, c :: cs => if c = p then dropLit ps cs else none

/-- Parse the body of a JSON string literal (the opening quote has been
consumed); returns the decoded characters and the input after the closing
quote.  Raw control characters are rejected, as in CPython's strict mode. -/
def pStr : List Char → Option (List Char × List Char)
  | [] => none
  | '"' :: rest => some ([], rest)
  | '\\' :: 'u' :: a :: b :: c2 :: d :: rest =>
    match hexVal a, hexVal b, hexVal c2, hexVal d with
    | some ha, some hb, some hc2, some hd =>
      let n := ((ha * 16 + hb) * 16 + hc2) * 16 + hd
      if h : Nat.isValidChar n then
        (pStr rest).map (fun p => (Char.ofNatAux n h :: p.1, p.2))
      else none
    | _, _, _, _ => none
  | '\\' :: e :: rest =>
    match unescapeChar e with
    | some u => (pStr rest).map (fun p => (u :: p.1, p.2))
    | none => none
  | ['\\'] => none
  | c :: rest => if c.toNat < 32 then none else (pStr rest).map (fun p => (c :: p.1, p.2))

/-- Parse the digits of a JSON integer (sign already consumed); fails on an
empty digit run and on the float syntax (`.`, `e`, `E`) absent from `Value`. -/
def pNumTail (neg : Bool) (cs : List Char) : Option (Value × List Char) :=
  match takeDigits cs with
  | ([], _) => none
  | (ds, rest) =>
    let ok : Option (Value × List Char) :=
      some (.int (if neg then -(digitsToNat ds : Int) else (digitsToNat ds : Int)), rest)
    match rest with
    | [] => ok
    | c :: _ => if c = '.' || c = 'e' || c = 'E' then none else ok

mutual

/-- Parse one JSON value, skipping leading whitespace. -/
def pVal : Nat → List Char → Option (Value × List Char)
  | 0, _ => none
  | f + 1, cs => pValCore f (skipWs cs)

/-- Dispatch on the first significant character of a value. -/
def pValCore : Nat → List Char → Option (Value × List Char)
  | _, [] => none
  | f, c :: rest =>
    if c = 'n' then (dropLit ['u', 'l', 'l'] rest).map (fun r => (.null, r))
    else if c = 't' then (dropLit ['r', 'u', 'e'] rest).map (fun r => (.bool true, r))
    else if c = 'f' then (dropLit ['a', 'l', 's', 'e'] rest).map (fun r => (.bool false, r))
    else if c = '"' then (pStr rest).map (fun p => (.str (String.mk p.1), p.2))
    else if c = '[' then pItems f rest
    else if c = '{' then pMembers f rest
    else if c = '-' then pNumTail true rest
    else if isDigitChar c then pNumTail false (c :: rest)
    else none

/-- Parse an array body after `[`. -/
def pItems : Nat → List Char → Option (Value × List Char)
  | 0, _ => none
  | f + 1, cs => pItemsCore f (skipWs cs) cs

/-- Dispatch for an array body: either `]` or a first element. -/
def pItemsCore : Nat → List Char → List Char → Option (Value × List Char)
  | _, [], _ => none
  | f, c :: rest, cs =>
    if c = ']' then some (.list [], rest)
    else
      match pVal f cs with
      | none => none
      | some (v, r1) =>
        match pMoreItems f r1 with
        | none => none
        | some (vs, r2) => some (.list (v :: vs), r2)

/-- Parse an array continuation: `,` then a value, or the closing `]`. -/
def pMoreItems : Nat → List Char → Option (List Value × List Char)
  | 0, _ => none
  | f + 1, cs => pMoreItemsCore f (skipWs cs)

/-- Dispatch for an array continuation. -/
def pMoreItemsCore : Nat → List Char → Option (List Value × List Char)
  | _, [] => none
  | f, c :: rest =>
    if c = ']' then some ([], rest)
    else if c = ',' then
      match pVal f rest with
      | none => none
      | some (v, r1) =>
        match pMoreItems f r1 with
        | none => none
        | some (vs, r2) => some (v :: vs, r2)
    else none

/-- Parse an object body after `{`. -/
def pMembers : Nat → List Char → Option (Value × List Char)
  | 0, _ => none
  | f + 1, cs => pMembersCore f (skipWs cs)

/-- Dispatch for an object body: either `}` or a first `"key": value` member. -/
def pMembersCore : Nat → List Char → Option (Value × List Char)
  | _, [] => none
  | f, c :: rest =>
    if c = '}' then some (.dict [], rest)
    else if c = '"' then
      match pStr rest with
      | none => none
      | some (k, r1) =>
        match skipWs r1 with
        | [] => none
        | c2 :: r2 =>
          if c2 = ':' then
            match pVal f r2 with
            | none => none
            | some (v, r3) =>
              match pMoreMembers f r3 with
              | none => none
              | some (kvs, r4) => some (.dict ((String.mk k, v) :: kvs), r4)
          else none
    else none

/-- Parse an object continuation: `,` then a member, or the closing `}`. -/
def pMoreMembers : Nat → List Char → Option (List (String × Value) × List Char)
  | 0, _ => none
  | f + 1, cs => pMoreMembersCore f (skipWs cs)

/-- Dispatch for an object continuation. -/
def pMoreMembersCore : Nat → List Char → Option (List (String × Value) × List Char)
  | _, [] => none
  | f, c :: rest =>
    if c = '}' then some ([], rest)
    else if c = ',' then
      match skipWs rest with
      | [] => none
      | c2 :: r1 =>
        if c2 = '"' then
          match pStr r1 with
          | none => none
          | some (k, r2) =>
            match skipWs r2 with
            | [] => none
            | c3 :: r3 =>
              if c3 = ':' then
                match pVal f r3 with
                | none => none
                | some (v, r4) =>
                  match pMoreMembers f r4 with
                  | none => none
                  | some (kvs, r5) => some ((String.mk k, v) :: kvs, r5)
              else none
        else none
    else none

end

/-- Model of `json.loads`: parse one value and require only whitespace after
it.  The fuel `2 * length + 2` dominates the recursion depth of any input. -/
def jsonLoads (s : String) : Option Value :=
  match pVal (2 * s.data.length + 2) s.data with
  | none => none
  | some (v, rest) => if skipWs rest = [] then some v else none

/-! ### Printer/parser round trip -/
/-- Delimiter condition after a printed number: the remaining input must not
extend the numeral. -/
def numDelim : List Char → Bool
  | [] => true
  | c :: _ => !(isDigitChar c || c = '.' || c = 'e' || c = 'E')

/-! Fuel lower bounds for the parser: `ts v` is enough fuel for `pVal` to parse
the serialization of `v`. -/
mutual

def ts : Value → Nat
  | .null => 1
  | .bool _ => 1
  | .int _ => 1
  | .str _ => 1
  | .list xs => 1 + tsItems xs
  | .dict kvs => 1 + tsMembers kvs

def tsItems : List Value → Nat
  | [] => 1
  | x :: xs => 1 + ts x + tsItems xs

def tsMembers : List (String × Value) → Nat
  | [] => 1
  | (_, v) :: kvs => 1 + ts v + tsMembers kvs

end

/-! ### Byte-buffer model: compression (`utils/compression.py`), base64, Fernet
(`utils/encryption.py`)

Byte strings are modelled by `Blob`.  `Blob.utf8 s` is the UTF-8 encoding of
`s`; `Blob.comp t lvl b` is the output of compression algorithm `t` at level
`lvl` on input `b`; `Blob.fernet b` is a Fernet token whose plaintext is `b`.
The partial inverses (`decompress_bytes`, `utf8Decode`, Fernet decrypt inside
`decrypt_string`) succeed exactly on buffers in the image of the matching
encoder: this models the contract the repository relies on — gzip/bzip2/lzma/
zlib decompression rejects a stream without its magic/framing (including
streams of a different algorithm and plain JSON text), Fernet rejects any
string that is not an authenticated token, and `bytes.decode('utf-8')` rejects
compressed or token binary data.  Levels are recorded because the compressed
bytes depend on them; decompression ignores them. -/
/-- The closed algorithm set `CompressionType` of `utils/compression.py`. -/
inductive CompressionType where
  | gzip
  | bzip2
  | lzma
  | zlib
  | none
deriving DecidableEq

/-- Model of byte buffers flowing through the secure codec pipeline. -/
inductive Blob where
  | utf8 (s : String)
  | comp (t : CompressionType) (lvl : Nat) (b : Blob)
  | fernet (b : Blob)
deriving DecidableEq

/-- Python truthiness of a byte buffer (`if not data`): only `b""` is falsy;
real compressed output and Fernet tokens are never empty. -/
def Blob.isEmpty : Blob → Bool
  | .utf8 s => s = ""
  | _ => false

/-- The level clamp in `CompressionManager.compress_bytes`:
`max(1, min(9, compression_level))`. -/
def clampLevel (lvl : Int) : Int :=
  max 1 (min 9 lvl)

/-- Model of `CompressionManager.compress_bytes`: empty input short-circuits to
`b""`, type `none` is a passthrough, otherwise the clamped level is handed to
the underlying algorithm. -/
def compress_bytes (t : CompressionType) (lvl : Int) (data : Blob) : Blob :=
  if data.isEmpty then .utf8 ""
  else if t = .none then data
  else .comp t (clampLevel lvl).toNat data

/-- The underlying decompression algorithm `t`: succeeds exactly on its own
output (at any level), fails on other algorithms' streams and on plain data. -/
def decompAlgo (t : CompressionType) : Blob → Option Blob
  | .comp t2 _ b => if t2 = t then some b else Option.none
  | .utf8 _ => Option.none
  | .fernet _ => Option.none

/-- Model of `CompressionManager.decompress_bytes`: empty input short-circuits
to `b""`, type `none` is a passthrough, otherwise the underlying algorithm
runs. -/
def decompress_bytes (t : CompressionType) (data : Blob) : Option Blob :=
  if data.isEmpty then some (.utf8 "")
  else if t = .none then some data
  else decompAlgo t data

/-- Model of `CompressionManager.compress_string`:
`data.encode('utf-8')` then `compress_bytes`. -/
def compress_string (t : CompressionType) (lvl : Int) (s : String) : Blob :=
  if s = "" then .utf8 ""
  else compress_bytes t lvl (.utf8 s)

/-- Model of `bytes.decode('utf-8')`: succeeds exactly on UTF-8 buffers;
compressed or token binary data raises `UnicodeDecodeError`. -/
def utf8Decode : Blob → Option String
  | .utf8 s => some s
  | _ => Option.none

/-- Model of `CompressionManager.decompress_string`:
`decompress_bytes` then `.decode('utf-8')`. -/
def decompress_string (t : CompressionType) (b : Blob) : Option String :=
  if b.isEmpty then some ""
  else (decompress_bytes t b).bind utf8Decode

/-- Model of `CompressionManager.compress_dict`: `json.dumps` then
`compress_string`; an empty dict short-circuits to `b""`. -/
def compress_dict (t : CompressionType) (lvl : Int) (kvs : List (String × Value)) : Blob :=
  match kvs with
  | [] => .utf8 ""
  | _ => compress_string t lvl (jsonDumps (.dict kvs))

/-- Tag characters of the base64 model text. -/
def ctypeTag : CompressionType → Char
  | .gzip => 'g'
  | .bzip2 => 'b'
  | .lzma => 'l'
  | .zlib => 'z'
  | .none => 'n'

/-- Inverse of `ctypeTag`. -/
def charTag (c : Char) : Option CompressionType :=
  if c = 'g' then some .gzip
  else if c = 'b' then some .bzip2
  else if c = 'l' then some .lzma
  else if c = 'z' then some .zlib
  else if c = 'n' then some .none
  else Option.none

/-- Characters of the base64 model text of a buffer: an injective (on the
buffers the pipeline produces), text-safe, prefix-decodable rendering.
`b64encodeChars b = []` exactly when `b` is `b""`, matching
`base64.b64encode(b"") == b""`. -/
def b64encodeChars : Blob → List Char
  | .utf8 s => if s = "" then [] else 'U' :: s.data
  | .comp t lvl b => 'C' :: ctypeTag t :: Nat.digitChar lvl :: b64encodeChars b
  | .fernet b => 'F' :: b64encodeChars b

/-- Model of `base64.b64encode(...).decode('utf-8')`. -/
def b64encode (b : Blob) : String :=
  String.mk (b64encodeChars b)

/-- Decoder for `b64encodeChars`: the partial inverse, failing on any text
that is not the rendering of a buffer (models the padding/alphabet failure of
`base64.b64decode` composed with the framing failure of the decompressor on
garbage bytes — see §4.2/§4.3 of the spec: these failures drive the fallback
search). -/
def b64decodeChars : List Char → Option Blob
  | [] => some (.utf8 "")
  | 'U' :: rest => if rest.isEmpty then Option.none else some (.utf8 (String.mk rest))
  | 'C' :: t :: l :: rest =>
    match charTag t, hexVal l with
    | some ty, some lvl => (b64decodeChars rest).map (fun b => .comp ty lvl b)
    | _, _ => Option.none
  | 'F' :: rest => (b64decodeChars rest).map .fernet
  | _ => Option.none

/-- Model of `base64.b64decode(s.encode('utf-8'))`. -/
def b64decode (s : String) : Option Blob :=
  b64decodeChars s.data

/-- Model of `EncryptionManager.encrypt_string`: empty input short-circuits to
`""`; otherwise the UTF-8 plaintext becomes a Fernet token, rendered text-safe
(`base64.urlsafe_b64encode`). -/
def encrypt_string (s : String) : String :=
  if s = "" then "" else b64encode (.fernet (.utf8 s))

/-- Model of `EncryptionManager.decrypt_string`: empty input short-circuits to
`""`; otherwise base64-decode, Fernet-decrypt (fails on anything that is not
an authenticated token) and UTF-8-decode the plaintext; any failure raises,
modelled as `none`. -/
def decrypt_string (s : String) : Option String :=
  if s = "" then some ""
  else
    match b64decode s with
    | some (.fernet b) => utf8Decode b
    | _ => Option.none

/-! ### Round-trip lemmas for the byte-buffer model -/
/-- Buffers whose recorded levels fit in one digit — true of everything the
pipeline produces, since `compress_bytes` clamps levels into `[1, 9]`. -/
def Blob.wf : Blob → Bool
  | .utf8 _ => true
  | .comp _ lvl b => lvl ≤ 9 && b.wf
  | .fernet b => b.wf

/-! ### The secure codec pipeline (`SecureDatabaseManager._secure_data` /
`_unsecure_data`) -/
/-- The security attributes of `SecureDatabaseManager` that the codec pipeline
reads: the three toggles, the compression manager's algorithm, and the level
(`self.enable_encryption`, `self.enable_compression`, `self.enable_checksums`,
`self.compression_manager.compression_type`, `self.compression_level`). -/
structure SecurityState where
  enable_encryption : Bool
  enable_compression : Bool
  enable_checksums : Bool
  compression_type : CompressionType
  compression_level : Int
deriving DecidableEq

/-- Defaults of `SecurityConfig` in `src/config.py`: encryption on,
compression on (gzip, level 6), checksums on. -/
def defaultSecurityState : SecurityState :=
  { enable_encryption := true
    enable_compression := true
    enable_checksums := true
    compression_type := .gzip
    compression_level := 6 }

/-- The serialization step of `_secure_data`: dicts and lists go through
`json.dumps(..., ensure_ascii=False)`, everything else through Python `str`
(`str` of a Python `bool` is `"True"`/`"False"`; the `None` arm is unreachable
because `_secure_data` returns early on `None`, and Python `str(None)` is
`"None"`). -/
def serializeValue : Value → String
  | .dict kvs => jsonDumps (.dict kvs)
  | .list xs => jsonDumps (.list xs)
  | .str s => s
  | .int n => String.mk (intRepr n)
  | .bool b => if b then "True" else "False"
  | .null => "None"

/-- Model of `SecureDatabaseManager._secure_data`: `None` encodes to `""`;
otherwise serialize, then (if enabled) compress and base64-wrap, then (if
enabled) encrypt. -/
def secure_data (st : SecurityState) (data : Value) : String :=
  match data with
  | .null => ""
  | d =>
    let json_data := serializeValue d
    let processed_data :=
      if st.enable_compression then
        b64encode (compress_string st.compression_type st.compression_level json_data)
      else json_data
    if st.enable_encryption then encrypt_string processed_data
    else processed_data

/-- The `try: return json.loads(json_data) except JSONDecodeError: return
json_data` step shared by every fallback attempt: text that is not JSON is
returned as a plain string value. -/
def parseOrStr (s : String) : Value :=
  match jsonLoads s with
  | some v => v
  | Option.none => .str s

/-- One iteration of the fallback loop in `_unsecure_data` for the candidate
flags `(try_encryption, try_compression)`: decrypt if flagged, base64-decode
and decompress if flagged, then `json.loads` with the plain-string fallback
for text that is not JSON.  `none` models the `continue` taken when a decrypt
or decompress step raises. -/
def tryAttempt (t : CompressionType) (tryEnc tryComp : Bool) (secured : String) :
    Option Value :=
  match (if tryEnc then decrypt_string secured else some secured) with
  | Option.none => Option.none
  | some processed =>
    match (if tryComp then (b64decode processed).bind (decompress_string t)
           else some processed) with
    | Option.none => Option.none
    | some json_data => some (parseOrStr json_data)

/-- The `for try_encryption, try_compression in attempts:` loop of
`_unsecure_data`: first successful attempt wins, failed attempts are skipped
silently. -/
def attemptLoop (t : CompressionType) (s : String) : List (Bool × Bool) → Option Value
  | [] => Option.none
  | (e, c) :: rest =>
    match tryAttempt t e c s with
    | some v => some v
    | Option.none => attemptLoop t s rest

/-- The candidate list of `_unsecure_data`, in source order: current
configuration, then without encryption, then without compression, then plain. -/
def unsecureAttempts (st : SecurityState) : List (Bool × Bool) :=
  [(st.enable_encryption, st.enable_compression),
   (false, st.enable_compression),
   (st.enable_encryption, false),
   (false, false)]

/-- Model of `SecureDatabaseManager._unsecure_data`: `""` decodes to `None`;
otherwise the four fallback attempts run in order, and if all fail the final
fallback parses the raw stored string as JSON, returning it as a plain string
when that also fails.  The function is total: it never raises. -/
def unsecure_data (st : SecurityState) (secured_data : String) : Value :=
  if secured_data = "" then .null
  else
    match attemptLoop st.compression_type secured_data (unsecureAttempts st) with
    | some v => v
    | Option.none => parseOrStr secured_data

/-- The compress-then-encrypt stages of `_secure_data` applied to already
serialized text (the code after `json_data` is computed). -/
def secure_payload (st : SecurityState) (json_data : String) : String :=
  let processed_data :=
    if st.enable_compression then
      b64encode (compress_string st.compression_type st.compression_level json_data)
    else json_data
  if st.enable_encryption then encrypt_string processed_data
  else processed_data

/-- Values in the amended round-trip claim: `None`, integers, lists and dicts.
Strings and booleans are excluded: `_secure_data` stores them via `str`, and
decode then re-parses the text, so `""` comes back as `None`, a string that is
itself valid JSON comes back as the parsed value, and `True` comes back as the
string `"True"`. -/
def roundValue : Value → Bool
  | .null => true
  | .int _ => true
  | .list _ => true
  | .dict _ => true
  | .bool _ => false
  | .str _ => false

/-! ### App data store, settings manager, backup/restore
(`SecureDatabaseManager.save_app_data` / `load_app_data` /
`update_security_settings` / `get_current_security_config` /
`backup_database` / `restore_database`)

The relational backing store is reduced to the `app_data` table: a list of
`(key, stored payload)` rows.  `writeOk`/`readOk` parameters model whether the
scoped sqlite transaction commits or raises (lock contention exhaustion or I/O
failure): on a raise the `except` paths of the source run, and the transaction
rolls back, leaving the rows unchanged.  The `security_metadata` audit table is
not modelled: no claim observes it. -/
/-- Manager state: security attributes plus the `app_data` table rows. -/
structure DBState where
  sec : SecurityState
  rows : List (String × String)
deriving DecidableEq

/-- One `INSERT OR REPLACE` into `app_data` (primary key `key`). -/
def upsertRow (rows : List (String × String)) (k v : String) :
    List (String × String) :=
  if rows.any (fun r => r.1 = k) then
    rows.map (fun r => if r.1 = k then (k, v) else r)
  else rows ++ [(k, v)]

/-- Python `str` of a value.  Exact for strings, integers, booleans and
`None`; for dicts and lists Python uses `repr` (single-quoted), which never
reaches the pipeline in this development — the `theme_mode` special case of
`save_app_data` is only ever applied to strings — so those arms reuse the JSON
rendering as a stand-in. -/
def pyStr : Value → String
  | .str s => s
  | .int n => String.mk (intRepr n)
  | .bool b => if b then "True" else "False"
  | .null => "None"
  | v => jsonDumps v

/-- Model of `SecureDatabaseManager.save_app_data`: each section is encoded
under the current configuration and upserted; `theme_mode` is stringified
first.  On a storage failure the `except` path returns `False` and the
transaction rolls back, leaving the rows unchanged. -/
def save_app_data (writeOk : Bool) (st : DBState)
    (app_data : List (String × Value)) : Bool × DBState :=
  if writeOk then
    (true,
     { st with
       rows := app_data.foldl
         (fun rows kv =>
           upsertRow rows kv.1
             (if kv.1 = "theme_mode" then secure_data st.sec (.str (pyStr kv.2))
              else secure_data st.sec kv.2))
         st.rows })
  else (false, st)

/-- Model of `SecureDatabaseManager.load_app_data`: decode every stored row
with `_unsecure_data`.  The source wraps each row in `try/except` with a
`continue` commented `# Skip corrupted data entries`, but `_unsecure_data` is
total — it never raises — so that skip branch is unreachable and every stored
row appears in the result.  `readOk = false` models the outer storage failure
path, which returns an empty dict. -/
def load_app_data (readOk : Bool) (st : DBState) : List (String × Value) :=
  if readOk then st.rows.map (fun kv => (kv.1, unsecure_data st.sec kv.2))
  else []

/-- Model of `SecureDatabaseManager.update_security_settings`: load all data
under the old configuration, overwrite the in-memory toggles for every
argument that is not `None`, then re-save the loaded data (only if any was
loaded) and return the save's status.  The source performs no rollback of the
toggles when the re-save fails. -/
def update_security_settings (readOk writeOk : Bool) (st : DBState)
    (encryption compression checksums : Option Bool) : Bool × DBState :=
  let current_data := load_app_data readOk st
  let st1 : DBState :=
    { st with
      sec :=
        { st.sec with
          enable_encryption := encryption.getD st.sec.enable_encryption
          enable_compression := compression.getD st.sec.enable_compression
          enable_checksums := checksums.getD st.sec.enable_checksums } }
  match current_data with
  | [] => (true, st1)
  | _ => save_app_data writeOk st1 current_data

/-- The string values of the `CompressionType` enum. -/
def ctypeValue : CompressionType → String
  | .gzip => "gzip"
  | .bzip2 => "bzip2"
  | .lzma => "lzma"
  | .zlib => "zlib"
  | .none => "none"

/-- Model of `SecureDatabaseManager.get_current_security_config`. -/
def get_current_security_config (st : DBState) : List (String × Value) :=
  [("encryption_enabled", .bool st.sec.enable_encryption),
   ("compression_enabled", .bool st.sec.enable_compression),
   ("checksums_enabled", .bool st.sec.enable_checksums),
   ("compression_type", .str (ctypeValue st.sec.compression_type))]

/-- `SecurityConfig.BACKUP_COMPRESSION` (src/config.py): constant `True`. -/
def BACKUP_COMPRESSION : Bool := true

/-- `SecurityConfig.BACKUP_ENCRYPTION` (src/config.py): constant `True`. -/
def BACKUP_ENCRYPTION : Bool := true

/-- Model of `SecureDatabaseManager.backup_database` on the success path.
`ts_file` is `datetime.now().strftime("%Y%m%d_%H%M%S")`, `ts_iso` the
manifest's `datetime.now().isoformat()`, and `stats` the
`get_storage_stats()` snapshot (file sizes and record counts — external I/O,
taken as a parameter).  Returns the path written and the file's text content. -/
def backup_database (st : DBState) (ts_file ts_iso : String) (stats : Value)
    (backup_path : Option String) : String × String :=
  let path :=
    match backup_path with
    | some p => p
    | Option.none => "backups/backup_" ++ ts_file ++ ".bms"
  let app_data := load_app_data true st
  let backup_data : List (String × Value) :=
    [("timestamp", .str ts_iso),
     ("version", .str "1.0"),
     ("app_data", .dict app_data),
     ("security_metadata", stats)]
  let backup_content :=
    if BACKUP_COMPRESSION then
      b64encode (compress_dict st.sec.compression_type st.sec.compression_level
        backup_data)
    else jsonDumps (.dict backup_data)
  let final_content :=
    if BACKUP_ENCRYPTION then encrypt_string backup_content else backup_content
  (path, final_content)

/-- Model of `SecureDatabaseManager.restore_database`.  `fileContent` is the
text of the backup file (`none` when the file does not exist).  Every failing
step — missing file, failed decrypt, failed base64/decompress, unparseable
JSON, manifest without a dict `app_data` entry — lands in the `except` path:
the function returns `False` and no write happens.  A manifest value that is
not a dict fails the `\'app_data\' not in backup_data` check or raises on
subscripting/iteration, all caught the same way; an `app_data` entry that is
not a dict makes `save_app_data`'s own `except` return `False` with rows
unchanged. -/
def restore_database (writeOk : Bool) (fileContent : Option String)
    (st : DBState) : Bool × DBState :=
  match fileContent with
  | Option.none => (false, st)
  | some content =>
    match (if BACKUP_ENCRYPTION then decrypt_string content else some content) with
    | Option.none => (false, st)
    | some c1 =>
      match (if BACKUP_COMPRESSION then
               (((b64decode c1).bind
                 (decompress_string st.sec.compression_type)).bind jsonLoads)
             else jsonLoads c1) with
      | Option.none => (false, st)
      | some backup_data =>
        match backup_data with
        | .dict kvs =>
          match List.lookup "app_data" kvs with
          | some (.dict app) => save_app_data writeOk st app
          | some _ => (false, st)
          | Option.none => (false, st)
        | _ => (false, st)

/-! ### Connection manager (`_get_connection_with_retry`) -/
/-- Outcome of one `sqlite3.connect` acquisition attempt, supplied by the
environment. -/
inductive ConnOutcome where
  | ok
  | locked
  | otherErr
deriving DecidableEq

/-- Result surfaced by `_get_connection_with_retry`. -/
inductive RetryResult where
  | success
  | lockedError
  | otherError
deriving DecidableEq

/-- Default `max_retries` of `_get_connection_with_retry`. -/
def defaultMaxRetries : Nat := 5

/-- Default `retry_delay` of `_get_connection_with_retry`, in milliseconds
(`0.1` seconds). -/
def defaultRetryDelayMs : Nat := 100

/-- The `for attempt in range(max_retries)` loop of
`_get_connection_with_retry`: on a "database is locked" error with retries
left, sleep `retry_delay * (2 ** attempt)` and continue; on the last attempt
re-raise.  Any other error propagates immediately.  Returns the result, the
number of attempts made, and the list of sleep durations (ms) in order.  The
fuel `remaining` counts loop iterations left; the `0` arm is the loop running
out of range (unreachable while `remaining` starts at `maxRetries` and the
lock branch re-raises at `attempt = maxRetries - 1`). -/
def retryGo (env : Nat → ConnOutcome) (maxRetries delayMs : Nat) :
    Nat → Nat → List Nat → RetryResult × Nat × List Nat
  | 0, attempt, sleeps => (.lockedError, attempt, sleeps)
  | remaining + 1, attempt, sleeps =>
    match env attempt with
    | .ok => (.success, attempt + 1, sleeps)
    | .otherErr => (.otherError, attempt + 1, sleeps)
    | .locked =>
      if attempt < maxRetries - 1 then
        retryGo env maxRetries delayMs remaining (attempt + 1)
          (sleeps ++ [delayMs * 2 ^ attempt])
      else (.lockedError, attempt + 1, sleeps)

/-- Model of `_get_connection_with_retry()` with its default arguments. -/
def get_connection_with_retry (env : Nat → ConnOutcome) :
    RetryResult × Nat × List Nat :=
  retryGo env defaultMaxRetries defaultRetryDelayMs defaultMaxRetries 0 []

/-! ### Integrity verifier (`DataIntegrityManager`, `utils/encryption.py`)

`calculate_hash(data)` is `hashlib.sha256(data).hexdigest()`; `verify_hash`
recomputes and compares.  SHA-256 is implemented concretely over byte lists;
32-bit words are `Nat` reduced modulo `2 ^ 32`. -/
/-- Reduction modulo `2 ^ 32`. -/
def w32 (x : Nat) : Nat := x % 4294967296

/-- 32-bit right rotation. -/
def rotr32 (n x : Nat) : Nat := ((x >>> n) ||| (x <<< (32 - n))) % 4294967296

/-- 32-bit complement. -/
def not32 (x : Nat) : Nat := 4294967295 ^^^ x

/-- SHA-256 round constants. -/
def sha256K : List Nat :=
  [1116352408, 1899447441, 3049323471, 3921009573, 961987163, 1508970993,
   2453635748, 2870763221, 3624381080, 310598401, 607225278, 1426881987,
   1925078388, 2162078206, 2614888103, 3248222580, 3835390401, 4022224774,
   264347078, 604807628, 770255983, 1249150122, 1555081692, 1996064986,
   2554220882, 2821834349, 2952996808, 3210313671, 3336571891, 3584528711,
   113926993, 338241895, 666307205, 773529912, 1294757372, 1396182291,
   1695183700, 1986661051, 2177026350, 2456956037, 2730485921, 2820302411,
   3259730800, 3345764771, 3516065817, 3600352804, 4094571909, 275423344,
   430227734, 506948616, 659060556, 883997877, 958139571, 1322822218,
   1537002063, 1747873779, 1955562222, 2024104815, 2227730452, 2361852424,
   2428436474, 2756734187, 3204031479, 3329325298]

/-- SHA-256 initial state. -/
def sha256H0 : List Nat :=
  [1779033703, 3144134277, 1013904242, 2773480762,
   1359893119, 2600822924, 528734635, 1541459225]

/-- Big-endian 4-byte grouping. -/
def bytesToWords : List Nat → List Nat
  | a :: b :: c :: d :: rest =>
    (a * 16777216 + b * 65536 + c * 256 + d) :: bytesToWords rest
  | _ => []

/-- SHA-256 padding: `0x80`, zeros to 56 mod 64, 8-byte big-endian bit length. -/
def sha256Pad (msg : List Nat) : List Nat :=
  let len := msg.length
  let bitLen := 8 * len
  msg ++ 0x80 :: List.replicate ((119 - len % 64) % 64) 0 ++
    [bitLen / 72057594037927936 % 256, bitLen / 281474976710656 % 256,
     bitLen / 1099511627776 % 256, bitLen / 4294967296 % 256,
     bitLen / 16777216 % 256, bitLen / 65536 % 256,
     bitLen / 256 % 256, bitLen % 256]

/-- Message-schedule extension from 16 to 64 words. -/
def sha256Schedule (w16 : List Nat) : List Nat :=
  (List.range 48).foldl
    (fun w _ =>
      let n := w.length
      let s0 := (rotr32 7 (w.getD (n - 15) 0)) ^^^ (rotr32 18 (w.getD (n - 15) 0)) ^^^
        ((w.getD (n - 15) 0) >>> 3)
      let s1 := (rotr32 17 (w.getD (n - 2) 0)) ^^^ (rotr32 19 (w.getD (n - 2) 0)) ^^^
        ((w.getD (n - 2) 0) >>> 10)
      w ++ [w32 (s1 + w.getD (n - 7) 0 + s0 + w.getD (n - 16) 0)])
    w16

/-- One SHA-256 compression round state. -/
structure Sha256Regs where
  a : Nat
  b : Nat
  c : Nat
  d : Nat
  e : Nat
  f : Nat
  g : Nat
  h : Nat

/-- Compression of one 64-byte block into the running state. -/
def sha256Compress (hs : List Nat) (block : List Nat) : List Nat :=
  let ws := sha256Schedule (bytesToWords block)
  let init : Sha256Regs :=
    { a := hs.getD 0 0, b := hs.getD 1 0, c := hs.getD 2 0, d := hs.getD 3 0,
      e := hs.getD 4 0, f := hs.getD 5 0, g := hs.getD 6 0, h := hs.getD 7 0 }
  let fin := (List.zip sha256K ws).foldl
    (fun r kw =>
      let S1 := (rotr32 6 r.e) ^^^ (rotr32 11 r.e) ^^^ (rotr32 25 r.e)
      let ch := (r.e &&& r.f) ^^^ ((not32 r.e) &&& r.g)
      let temp1 := w32 (r.h + S1 + ch + kw.1 + kw.2)
      let S0 := (rotr32 2 r.a) ^^^ (rotr32 13 r.a) ^^^ (rotr32 22 r.a)
      let maj := (r.a &&& r.b) ^^^ (r.a &&& r.c) ^^^ (r.b &&& r.c)
      let temp2 := w32 (S0 + maj)
      { a := w32 (temp1 + temp2), b := r.a, c := r.b, d := r.c,
        e := w32 (r.d + temp1), f := r.e, g := r.f, h := r.g })
    init
  [w32 (hs.getD 0 0 + fin.a), w32 (hs.getD 1 0 + fin.b),
   w32 (hs.getD 2 0 + fin.c), w32 (hs.getD 3 0 + fin.d),
   w32 (hs.getD 4 0 + fin.e), w32 (hs.getD 5 0 + fin.f),
   w32 (hs.getD 6 0 + fin.g), w32 (hs.getD 7 0 + fin.h)]

/-- Fold the compression over all 64-byte blocks. -/
def sha256Blocks (hs : List Nat) (msg : List Nat) : List Nat :=
  if msg = [] then hs
  else sha256Blocks (sha256Compress hs (msg.take 64)) (msg.drop 64)
  termination_by msg.length
  decreasing_by
    simp only [List.length_drop]
    have : msg.length ≠ 0 := by
      intro hc
      exact (by assumption : ¬ msg = []) (List.length_eq_zero.mp hc)
    omega

/-- SHA-256 state words of a byte string. -/
def sha256Bytes (msg : List Nat) : List Nat :=
  sha256Blocks sha256H0 (sha256Pad msg)

/-- Lowercase hexadecimal rendering of one 32-bit word. -/
def wordHex (x : Nat) : List Char :=
  [Nat.digitChar (x / 268435456 % 16), Nat.digitChar (x / 16777216 % 16),
   Nat.digitChar (x / 1048576 % 16), Nat.digitChar (x / 65536 % 16),
   Nat.digitChar (x / 4096 % 16), Nat.digitChar (x / 256 % 16),
   Nat.digitChar (x / 16 % 16), Nat.digitChar (x % 16)]

/-- Model of `DataIntegrityManager.calculate_hash`:
`hashlib.sha256(data).hexdigest()` over the payload bytes. -/
def calculate_hash (data : List Nat) : String :=
  String.mk ((sha256Bytes data).foldr (fun w acc => wordHex w ++ acc) [])

/-- Model of `DataIntegrityManager.verify_hash`: recompute and compare. -/
def verify_hash (data : List Nat) (expected_hash : String) : Bool :=
  calculate_hash data = expected_hash

/-- One decode candidate as claim C2 words it: attempt decrypt-if-flagged,
then attempt base64-decode-and-decompress-if-flagged, then parse the canonical
representation (JSON, with plain text standing for a string value).  Stated
with `Option.bind` independently of the `_unsecure_data` translation
`tryAttempt`, to be compared with it. -/
def specCandidate (t : CompressionType) (e c : Bool) (s : String) : Option Value :=
  (if e then decrypt_string s else some s).bind fun processed =>
  (if c then (b64decode processed).bind (decompress_string t)
   else some processed).bind fun json_data =>
  some (parseOrStr json_data)

/-- The decode-and-validate pipeline of `restore_database`, step by step as
the claim lists it: read the file, decrypt, base64-decode and decompress,
parse the manifest, and extract a dict `app_data` section; `none` at any step
is that step failing. -/
def restoreManifestAppData (t : CompressionType) (fileContent : Option String) :
    Option (List (String × Value)) :=
  fileContent.bind fun content =>
  (decrypt_string content).bind fun c1 =>
  (((b64decode c1).bind (decompress_string t)).bind jsonLoads).bind fun bd =>
  match bd with
  | .dict kvs =>
    match List.lookup "app_data" kvs with
    | some (.dict app) => some app
    | _ => Option.none
  | _ => Option.none

/-! ### Theorems -/

theorem digitsToNat_append (ds es : List Char) :
    digitsToNat (ds ++ es) = es.foldl (fun acc c => 10 * acc + digitVal c) (digitsToNat ds) := by
  simp [digitsToNat, List.foldl_append]

theorem natDecimal_all_digits (n : Nat) : ∀ c ∈ natDecimal n, isDigitChar c = true := by
  induction n using Nat.strong_induction_on with
  | _ n ih =>
    intro c hc
    rw [natDecimal] at hc
    split at hc
    · simp at hc
      subst hc
      next h =>
      interval_cases n <;> decide
    · next h =>
      simp at hc
      rcases hc with hc | hc
      · exact ih (n / 10) (Nat.div_lt_self (by omega) (by omega)) c hc
      · subst hc
        have : n % 10 < 10 := Nat.mod_lt _ (by omega)
        interval_cases h10 : n % 10 <;> simp_all <;> decide

theorem digitVal_digitChar (n : Nat) (h : n < 10) : digitVal (Nat.digitChar n) = n := by
  interval_cases n <;> decide

theorem natDecimal_ne_nil (n : Nat) : natDecimal n ≠ [] := by
  rw [natDecimal]
  split
  · simp
  · simp

theorem digitsToNat_natDecimal (n : Nat) : digitsToNat (natDecimal n) = n := by
  induction n using Nat.strong_induction_on with
  | _ n ih =>
    rw [natDecimal]
    split
    · next h =>
      simp [digitsToNat, digitVal_digitChar n h]
    · next h =>
      rw [digitsToNat_append]
      rw [ih (n / 10) (Nat.div_lt_self (by omega) (by omega))]
      simp [digitVal_digitChar (n % 10) (Nat.mod_lt _ (by omega))]
      omega

theorem takeDigits_digits_append (ds rest : List Char)
    (hds : ∀ c ∈ ds, isDigitChar c = true)
    (hrest : ∀ c, rest.head? = some c → isDigitChar c = false) :
    takeDigits (ds ++ rest) = (ds, rest) := by
  induction ds with
  | nil =>
    simp only [List.nil_append]
    cases rest with
    | nil => rfl
    | cons c cs =>
      have := hrest c rfl
      simp [takeDigits, this]
  | cons c cs ih =>
    have hc := hds c (by simp)
    simp only [List.cons_append, takeDigits, hc, if_true]
    have h2 := ih (fun x hx => hds x (by simp [hx]))
    simp only [List.append_eq]
    rw [h2]

theorem skipWs_not_ws (c : Char) (cs : List Char) (h : isWsChar c = false) :
    skipWs (c :: cs) = c :: cs := by
  simp [skipWs, h]

theorem hexVal_digitChar (n : Nat) (h : n < 16) : hexVal (Nat.digitChar n) = some n := by
  interval_cases n <;> decide

theorem string_mk_data (s : String) : String.mk s.data = s := rfl

theorem char_ofNatAux_toNat (c : Char) (h : Nat.isValidChar c.toNat) :
    Char.ofNatAux c.toNat h = c := by
  have h2 := Char.ofNat_toNat c
  rw [Char.ofNat, dif_pos h] at h2
  exact h2

theorem pStr_escapeChar (c : Char) (tail : List Char) :
    pStr (escapeChar c ++ tail) = (pStr tail).map (fun p => (c :: p.1, p.2)) := by
  by_cases h1 : c = '"'
  · subst h1; simp [escapeChar, pStr, unescapeChar]
  by_cases h2 : c = '\\'
  · subst h2; simp [escapeChar, pStr, unescapeChar]
  by_cases h3 : c = '\n'
  · subst h3; simp [escapeChar, pStr, unescapeChar]
  by_cases h4 : c = '\r'
  · subst h4; simp [escapeChar, pStr, unescapeChar]
  by_cases h5 : c = '\t'
  · subst h5; simp [escapeChar, pStr, unescapeChar]
  by_cases h6 : c = '\x08'
  · subst h6; simp [escapeChar, pStr, unescapeChar]
  by_cases h7 : c = '\x0c'
  · subst h7; simp [escapeChar, pStr, unescapeChar]
  by_cases h8 : c.toNat < 32
  · have hq : c.toNat / 16 < 16 := by omega
    have hr : c.toNat % 16 < 16 := by omega
    have hv : Nat.isValidChar c.toNat := Or.inl (by omega)
    rw [escapeChar, if_neg h1, if_neg h2, if_neg h3, if_neg h4, if_neg h5, if_neg h6,
      if_neg h7, if_pos h8]
    simp only [List.cons_append, List.nil_append]
    rw [pStr, hexVal_digitChar _ hq, hexVal_digitChar _ hr,
      show hexVal '0' = some 0 from by decide]
    simp only [show ((0 * 16 + 0) * 16 + c.toNat / 16) * 16 + c.toNat % 16 = c.toNat from
      by omega]
    rw [dif_pos hv, char_ofNatAux_toNat c hv]
  · have h9 : ¬ c.toNat < 32 := h8
    rw [escapeChar, if_neg h1, if_neg h2, if_neg h3, if_neg h4, if_neg h5, if_neg h6,
      if_neg h7, if_neg h9]
    simp only [List.cons_append, List.nil_append]
    rw [pStr, if_neg h9]
    · exact fun h => h1 h
    · exact fun _ _ _ _ _ h _ => h2 h
    · exact fun _ _ h _ => h2 h
    · exact fun h _ => h2 h

theorem pStr_escape_list (l rest : List Char) :
    pStr ((l.foldr (fun c acc => escapeChar c ++ acc) []) ++ '"' :: rest) =
      some (l, rest) := by
  induction l with
  | nil => simp [pStr]
  | cons c cs ih =>
    simp only [List.foldr_cons, List.append_assoc]
    rw [pStr_escapeChar, ih]
    rfl

theorem pStr_escapeString (s : String) (rest : List Char) :
    pStr (escapeString s ++ '"' :: rest) = some (s.data, rest) :=
  pStr_escape_list s.data rest

theorem numDelim_cons_of (c : Char) (l : List Char)
    (h : isDigitChar c = false) (h1 : c ≠ '.') (h2 : c ≠ 'e') (h3 : c ≠ 'E') :
    numDelim (c :: l) = true := by
  simp [numDelim, h, h1, h2, h3]

theorem numDelim_head (rest : List Char) (h : numDelim rest = true) :
    ∀ c, rest.head? = some c → isDigitChar c = false := by
  cases rest with
  | nil => intro c hc; cases hc
  | cons c0 l =>
    intro c hc
    injection hc with hc
    subst hc
    simp [numDelim] at h
    exact h.1.1.1

theorem numDelim_num_stop (c : Char) (l : List Char) (h : numDelim (c :: l) = true) :
    isDigitChar c = false ∧ c ≠ '.' ∧ c ≠ 'e' ∧ c ≠ 'E' := by
  simpa [numDelim, and_assoc] using h

theorem digit_not_ws (c : Char) (h : isDigitChar c = true) : isWsChar c = false := by
  cases hws : isWsChar c with
  | false => rfl
  | true =>
    exfalso
    have hcs : c = ' ' ∨ c = '\t' ∨ c = '\n' ∨ c = '\r' := by
      simpa [isWsChar, or_assoc] using hws
    rcases hcs with rfl | rfl | rfl | rfl <;> exact absurd h (by decide)

theorem digit_ne_markers (c : Char) (h : isDigitChar c = true) :
    c ≠ 'n' ∧ c ≠ 't' ∧ c ≠ 'f' ∧ c ≠ '"' ∧ c ≠ '[' ∧ c ≠ '{' ∧ c ≠ '-' ∧
      c ≠ ']' ∧ c ≠ '}' := by
  refine ⟨?_, ?_, ?_, ?_, ?_, ?_, ?_, ?_, ?_⟩ <;>
    (intro hc; rw [hc] at h; exact absurd h (by decide))

theorem natDecimal_cons (m : Nat) : ∃ d ds, natDecimal m = d :: ds := by
  cases hnd : natDecimal m with
  | nil => exact absurd hnd (natDecimal_ne_nil m)
  | cons d ds => exact ⟨d, ds, rfl⟩

theorem pNumTail_natDecimal (neg : Bool) (m : Nat) (rest : List Char)
    (h : numDelim rest = true) :
    pNumTail neg (natDecimal m ++ rest) =
      some (.int (if neg then -(m : Int) else (m : Int)), rest) := by
  have htd : takeDigits (natDecimal m ++ rest) = (natDecimal m, rest) :=
    takeDigits_digits_append _ _ (natDecimal_all_digits m) (numDelim_head rest h)
  obtain ⟨d, ds, hd⟩ := natDecimal_cons m
  rw [pNumTail, htd, hd]
  have hm : digitsToNat (d :: ds) = m := by rw [← hd]; exact digitsToNat_natDecimal m
  cases rest with
  | nil => simp [hm]
  | cons c0 l =>
    obtain ⟨hs1, hs2, hs3, hs4⟩ := numDelim_num_stop c0 l h
    simp [hm, hs1, hs2, hs3, hs4]

theorem skipWs_skipWs_ws (c : Char) (l : List Char) (h : isWsChar c = true) :
    skipWs (c :: l) = skipWs l := by
  simp [skipWs, h]

theorem pVal_leading_space (f : Nat) (l : List Char) : pVal f (' ' :: l) = pVal f l := by
  cases f with
  | zero => rw [pVal, pVal]
  | succ f =>
    rw [pVal, pVal, skipWs_skipWs_ws ' ' l (by decide)]

theorem ts_pos (v : Value) : 1 ≤ ts v := by
  cases v <;> (simp only [ts]; omega)

theorem tsItems_pos (xs : List Value) : 1 ≤ tsItems xs := by
  cases xs <;> (simp only [tsItems]; omega)

theorem tsMembers_pos (kvs : List (String × Value)) : 1 ≤ tsMembers kvs := by
  cases kvs with
  | nil => simp only [tsMembers]; omega
  | cons kv kvs => obtain ⟨k, v⟩ := kv; simp only [tsMembers]; omega

theorem dumps_head (v : Value) :
    ∃ c cs, dumpsVal v = c :: cs ∧ isWsChar c = false ∧ c ≠ ']' ∧ c ≠ '}' := by
  cases v with
  | null => exact ⟨'n', _, rfl, by decide, by decide, by decide⟩
  | bool b =>
    cases b with
    | false => exact ⟨'f', _, rfl, by decide, by decide, by decide⟩
    | true => exact ⟨'t', _, rfl, by decide, by decide, by decide⟩
  | int n =>
    by_cases hn : n < 0
    · refine ⟨'-', natDecimal n.natAbs, ?_, by decide, by decide, by decide⟩
      simp [dumpsVal, intRepr, hn]
    · obtain ⟨d, ds, hd⟩ := natDecimal_cons n.toNat
      have hdig : isDigitChar d = true :=
        natDecimal_all_digits n.toNat d (hd ▸ List.mem_cons_self d ds)
      obtain ⟨_, _, _, _, _, _, _, hd1, hd2⟩ := digit_ne_markers d hdig
      refine ⟨d, ds, ?_, digit_not_ws d hdig, hd1, hd2⟩
      simp [dumpsVal, intRepr, hn, hd]
  | str s => exact ⟨'"', _, rfl, by decide, by decide, by decide⟩
  | list xs => exact ⟨'[', _, rfl, by decide, by decide, by decide⟩
  | dict kvs => exact ⟨'{', _, rfl, by decide, by decide, by decide⟩

theorem numDelim_moreItems (xs : List Value) (rest : List Char) :
    numDelim (dumpsMoreItems xs ++ ']' :: rest) = true := by
  cases xs with
  | nil => simp only [dumpsMoreItems, List.nil_append]; rfl
  | cons x xs => simp only [dumpsMoreItems, List.cons_append]; rfl

theorem numDelim_moreMembers (kvs : List (String × Value)) (rest : List Char) :
    numDelim (dumpsMoreMembers kvs ++ '}' :: rest) = true := by
  cases kvs with
  | nil => simp only [dumpsMoreMembers, List.nil_append]; rfl
  | cons kv kvs =>
    obtain ⟨k, v⟩ := kv
    simp only [dumpsMoreMembers, List.cons_append]
    rfl

mutual

theorem pVal_dumps (v : Value) (f : Nat) (rest : List Char)
    (hf : ts v ≤ f) (hr : numDelim rest = true) :
    pVal f (dumpsVal v ++ rest) = some (v, rest) := by
  have h1 := ts_pos v
  cases f with
  | zero => omega
  | succ f =>
    cases v with
    | null =>
      simp only [dumpsVal, List.cons_append, List.nil_append]
      rw [pVal, skipWs_not_ws _ _ (by decide), pValCore]
      rfl
    | bool b =>
      cases b with
      | false =>
        simp only [dumpsVal, List.cons_append, List.nil_append]
        rw [pVal, skipWs_not_ws _ _ (by decide), pValCore]
        rfl
      | true =>
        simp only [dumpsVal, List.cons_append, List.nil_append]
        rw [pVal, skipWs_not_ws _ _ (by decide), pValCore]
        rfl
    | int n =>
      by_cases hn : n < 0
      · have hdv : dumpsVal (.int n) = '-' :: natDecimal n.natAbs := by
          simp [dumpsVal, intRepr, hn]
        rw [hdv]
        simp only [List.cons_append]
        rw [pVal, skipWs_not_ws _ _ (by decide), pValCore]
        simp only [reduceIte]
        rw [pNumTail_natDecimal true n.natAbs rest hr]
        simp only [reduceIte]
        have hval : -((n.natAbs : ℤ)) = n := by omega
        rw [hval]
        rfl
      · obtain ⟨d, ds, hd⟩ := natDecimal_cons n.toNat
        have hdig : isDigitChar d = true :=
          natDecimal_all_digits n.toNat d (hd ▸ List.mem_cons_self d ds)
        obtain ⟨hm1, hm2, hm3, hm4, hm5, hm6, hm7, _, _⟩ := digit_ne_markers d hdig
        have hdv : dumpsVal (.int n) = d :: ds := by
          simp [dumpsVal, intRepr, hn, hd]
        rw [hdv]
        simp only [List.cons_append]
        rw [pVal, skipWs_not_ws _ _ (digit_not_ws d hdig), pValCore]
        simp only [hm1, hm2, hm3, hm4, hm5, hm6, hm7, hdig, if_false, if_true,
          ite_false, ite_true]
        rw [show d :: (ds ++ rest) = natDecimal n.toNat ++ rest from by rw [hd]; rfl]
        rw [pNumTail_natDecimal false n.toNat rest hr]
        have hval : ((n.toNat : ℤ)) = n := by omega
        simp [hval]
    | str s =>
      have hdv : dumpsVal (.str s) ++ rest = '"' :: (escapeString s ++ '"' :: rest) := by
        simp [dumpsVal, quoteChars]
      rw [hdv, pVal, skipWs_not_ws _ _ (by decide), pValCore]
      simp only [reduceIte]
      rw [pStr_escapeString]
      simp [string_mk_data]
    | list xs =>
      have hdv : dumpsVal (.list xs) ++ rest = '[' :: (dumpsItems xs ++ ']' :: rest) := by
        simp [dumpsVal]
      rw [hdv, pVal, skipWs_not_ws _ _ (by decide), pValCore]
      simp only [reduceIte]
      exact pItems_dumps xs f rest (by simp only [ts] at hf; omega)
    | dict kvs =>
      have hdv : dumpsVal (.dict kvs) ++ rest = '{' :: (dumpsMembers kvs ++ '}' :: rest) := by
        simp [dumpsVal]
      rw [hdv, pVal, skipWs_not_ws _ _ (by decide), pValCore]
      simp only [reduceIte]
      exact pMembers_dumps kvs f rest (by simp only [ts] at hf; omega)

theorem pItems_dumps (xs : List Value) (f : Nat) (rest : List Char)
    (hf : tsItems xs ≤ f) :
    pItems f (dumpsItems xs ++ ']' :: rest) = some (.list xs, rest) := by
  have h1 := tsItems_pos xs
  cases f with
  | zero => omega
  | succ f =>
    cases xs with
    | nil =>
      simp only [dumpsItems, List.nil_append]
      rw [pItems, skipWs_not_ws _ _ (by decide), pItemsCore]
      rfl
    | cons x xs =>
      obtain ⟨c, cs0, hdc, hcw, hcr, _⟩ := dumps_head x
      have hts : tsItems (x :: xs) = 1 + ts x + tsItems xs := by simp only [tsItems]
      have hin : dumpsItems (x :: xs) ++ ']' :: rest =
          c :: (cs0 ++ (dumpsMoreItems xs ++ ']' :: rest)) := by
        simp only [dumpsItems, List.append_assoc]
        rw [hdc]
        rfl
      rw [hin, pItems, skipWs_not_ws _ _ hcw, pItemsCore, if_neg hcr]
      rw [show c :: (cs0 ++ (dumpsMoreItems xs ++ ']' :: rest)) =
          dumpsVal x ++ (dumpsMoreItems xs ++ ']' :: rest) from by rw [hdc]; rfl]
      rw [pVal_dumps x f (dumpsMoreItems xs ++ ']' :: rest)
        (by omega) (numDelim_moreItems xs rest)]
      simp only []
      rw [pMoreItems_dumps xs f rest (by omega)]

theorem pMoreItems_dumps (xs : List Value) (f : Nat) (rest : List Char)
    (hf : tsItems xs ≤ f) :
    pMoreItems f (dumpsMoreItems xs ++ ']' :: rest) = some (xs, rest) := by
  have h1 := tsItems_pos xs
  cases f with
  | zero => omega
  | succ f =>
    cases xs with
    | nil =>
      simp only [dumpsMoreItems, List.nil_append]
      rw [pMoreItems, skipWs_not_ws _ _ (by decide), pMoreItemsCore]
      rfl
    | cons x xs =>
      have hts : tsItems (x :: xs) = 1 + ts x + tsItems xs := by simp only [tsItems]
      have hin : dumpsMoreItems (x :: xs) ++ ']' :: rest =
          ',' :: ' ' :: (dumpsVal x ++ (dumpsMoreItems xs ++ ']' :: rest)) := by
        simp [dumpsMoreItems]
      rw [hin, pMoreItems, skipWs_not_ws _ _ (by decide), pMoreItemsCore]
      simp only [reduceIte]
      rw [pVal_leading_space, pVal_dumps x f (dumpsMoreItems xs ++ ']' :: rest)
        (by omega) (numDelim_moreItems xs rest)]
      simp only []
      rw [pMoreItems_dumps xs f rest (by omega)]
      rfl

theorem pMembers_dumps (kvs : List (String × Value)) (f : Nat) (rest : List Char)
    (hf : tsMembers kvs ≤ f) :
    pMembers f (dumpsMembers kvs ++ '}' :: rest) = some (.dict kvs, rest) := by
  have h1 := tsMembers_pos kvs
  cases f with
  | zero => omega
  | succ f =>
    cases kvs with
    | nil =>
      simp only [dumpsMembers, List.nil_append]
      rw [pMembers, skipWs_not_ws _ _ (by decide), pMembersCore]
      rfl
    | cons kv kvs =>
      obtain ⟨k, v⟩ := kv
      have hts : tsMembers ((k, v) :: kvs) = 1 + ts v + tsMembers kvs := by
        simp only [tsMembers]
      have hin : dumpsMembers ((k, v) :: kvs) ++ '}' :: rest =
          '"' :: (escapeString k ++ '"' :: (':' :: ' ' ::
            (dumpsVal v ++ (dumpsMoreMembers kvs ++ '}' :: rest)))) := by
        simp [dumpsMembers, quoteChars]
      rw [hin, pMembers, skipWs_not_ws _ _ (by decide), pMembersCore]
      simp only [reduceIte]
      rw [pStr_escapeString]
      simp only []
      rw [skipWs_not_ws _ _ (by decide)]
      simp only [reduceIte]
      rw [pVal_leading_space, pVal_dumps v f (dumpsMoreMembers kvs ++ '}' :: rest)
        (by omega) (numDelim_moreMembers kvs rest)]
      simp only []
      rw [pMoreMembers_dumps kvs f rest (by omega)]
      simp [string_mk_data]

theorem pMoreMembers_dumps (kvs : List (String × Value)) (f : Nat) (rest : List Char)
    (hf : tsMembers kvs ≤ f) :
    pMoreMembers f (dumpsMoreMembers kvs ++ '}' :: rest) = some (kvs, rest) := by
  have h1 := tsMembers_pos kvs
  cases f with
  | zero => omega
  | succ f =>
    cases kvs with
    | nil =>
      simp only [dumpsMoreMembers, List.nil_append]
      rw [pMoreMembers, skipWs_not_ws _ _ (by decide), pMoreMembersCore]
      rfl
    | cons kv kvs =>
      obtain ⟨k, v⟩ := kv
      have hts : tsMembers ((k, v) :: kvs) = 1 + ts v + tsMembers kvs := by
        simp only [tsMembers]
      have hin : dumpsMoreMembers ((k, v) :: kvs) ++ '}' :: rest =
          ',' :: ' ' :: '"' :: (escapeString k ++ '"' :: (':' :: ' ' ::
            (dumpsVal v ++ (dumpsMoreMembers kvs ++ '}' :: rest)))) := by
        simp [dumpsMoreMembers, quoteChars]
      rw [hin, pMoreMembers, skipWs_not_ws _ _ (by decide), pMoreMembersCore]
      simp only [reduceIte]
      rw [skipWs_skipWs_ws ' ' _ (by decide), skipWs_not_ws _ _ (by decide)]
      simp only [reduceIte]
      rw [pStr_escapeString]
      simp only []
      rw [skipWs_not_ws _ _ (by decide)]
      simp only [reduceIte]
      rw [pVal_leading_space, pVal_dumps v f (dumpsMoreMembers kvs ++ '}' :: rest)
        (by omega) (numDelim_moreMembers kvs rest)]
      simp only []
      rw [pMoreMembers_dumps kvs f rest (by omega)]
      simp [string_mk_data]

end

/-! Fuel bounds: the fuel `2 * length + 2` used by `jsonLoads` dominates `ts`. -/
theorem intRepr_ne_nil (n : Int) : intRepr n ≠ [] := by
  rw [intRepr]
  split
  · simp
  · exact natDecimal_ne_nil _

mutual

theorem ts_le_len (v : Value) : ts v ≤ 2 * (dumpsVal v).length := by
  cases v with
  | null => simp [ts, dumpsVal]
  | bool b => cases b <;> simp [ts, dumpsVal]
  | int n =>
    have h2 : 1 ≤ (intRepr n).length := List.length_pos.mpr (intRepr_ne_nil n)
    simp only [ts, dumpsVal]
    omega
  | str s =>
    simp only [ts, dumpsVal, quoteChars, List.length_cons, List.length_append]
    omega
  | list xs =>
    have hb := tsItems_le_items xs
    simp only [ts, dumpsVal, List.length_cons, List.length_append]
    simp only [List.length_cons, List.length_nil] at hb ⊢
    omega
  | dict kvs =>
    have hb := tsMembers_le_members kvs
    simp only [ts, dumpsVal, List.length_cons, List.length_append]
    simp only [List.length_cons, List.length_nil] at hb ⊢
    omega

theorem tsItems_le_items (xs : List Value) :
    tsItems xs ≤ 2 * (dumpsItems xs).length + 3 := by
  cases xs with
  | nil => simp [tsItems, dumpsItems]
  | cons x xs =>
    have ha := ts_le_len x
    have hc := tsItems_le_more xs
    simp only [tsItems, dumpsItems, List.length_append]
    omega

theorem tsItems_le_more (xs : List Value) :
    tsItems xs ≤ 2 * (dumpsMoreItems xs).length + 1 := by
  cases xs with
  | nil => simp [tsItems, dumpsMoreItems]
  | cons x xs =>
    have ha := ts_le_len x
    have hc := tsItems_le_more xs
    simp only [tsItems, dumpsMoreItems, List.length_append, List.length_cons]
    omega

theorem tsMembers_le_members (kvs : List (String × Value)) :
    tsMembers kvs ≤ 2 * (dumpsMembers kvs).length + 3 := by
  cases kvs with
  | nil => simp [tsMembers, dumpsMembers]
  | cons kv kvs =>
    obtain ⟨k, v⟩ := kv
    have ha := ts_le_len v
    have hc := tsMembers_le_more kvs
    simp only [tsMembers, dumpsMembers, List.length_append, List.length_cons]
    omega

theorem tsMembers_le_more (kvs : List (String × Value)) :
    tsMembers kvs ≤ 2 * (dumpsMoreMembers kvs).length + 1 := by
  cases kvs with
  | nil => simp [tsMembers, dumpsMoreMembers]
  | cons kv kvs =>
    obtain ⟨k, v⟩ := kv
    have ha := ts_le_len v
    have hc := tsMembers_le_more kvs
    simp only [tsMembers, dumpsMoreMembers, List.length_append, List.length_cons]
    omega

end

/-- Round trip of the modelled `json` library: parsing the canonical
serialization of any value returns that value. -/
theorem jsonLoads_jsonDumps (v : Value) : jsonLoads (jsonDumps v) = some v := by
  have hd : (jsonDumps v).data = dumpsVal v := rfl
  have hfuel : ts v ≤ 2 * (dumpsVal v).length + 2 := by
    have := ts_le_len v
    omega
  have hp := pVal_dumps v (2 * (dumpsVal v).length + 2) [] hfuel (by rfl)
  rw [List.append_nil] at hp
  rw [jsonLoads, hd, hp]
  rfl

theorem charTag_ctypeTag (t : CompressionType) : charTag (ctypeTag t) = some t := by
  cases t <;> rfl

theorem string_eq_empty_iff (s : String) : s = "" ↔ s.data = [] := by
  constructor
  · intro h
    rw [h]
  · intro h
    cases s with
    | mk l =>
      simp only [String.data] at h
      rw [h]

theorem b64decode_b64encode (b : Blob) (h : b.wf = true) :
    b64decode (b64encode b) = some b := by
  rw [b64decode, b64encode]
  show b64decodeChars (b64encodeChars b) = some b
  induction b with
  | utf8 s =>
    by_cases hs : s = ""
    · subst hs; rfl
    · rw [b64encodeChars, if_neg hs, b64decodeChars]
      have hd : s.data ≠ [] := fun hc => hs ((string_eq_empty_iff s).mpr hc)
      simp [hd, string_mk_data]
  | comp t lvl b ih =>
    simp only [Blob.wf, Bool.and_eq_true] at h
    obtain ⟨hl, hw⟩ := h
    have hl9 : lvl ≤ 9 := by simpa using hl
    rw [b64encodeChars, b64decodeChars, charTag_ctypeTag,
      hexVal_digitChar lvl (by omega), ih hw]
    rfl
  | fernet b ih =>
    simp only [Blob.wf] at h
    rw [b64encodeChars, b64decodeChars, ih h]
    rfl

theorem b64encodeChars_ne_nil_comp (t : CompressionType) (lvl : Nat) (b : Blob) :
    b64encodeChars (.comp t lvl b) ≠ [] := by
  rw [b64encodeChars]; simp

theorem b64encodeChars_ne_nil_fernet (b : Blob) : b64encodeChars (.fernet b) ≠ [] := by
  rw [b64encodeChars]; simp

theorem b64encode_eq_empty_iff (b : Blob) : b64encode b = "" ↔ b64encodeChars b = [] := by
  rw [b64encode]
  constructor
  · intro h
    have := congrArg String.data h
    simpa using this
  · intro h
    rw [h]

theorem encrypt_string_ne_empty (s : String) (hs : s ≠ "") : encrypt_string s ≠ "" := by
  rw [encrypt_string, if_neg hs]
  intro hc
  exact b64encodeChars_ne_nil_fernet _ ((b64encode_eq_empty_iff _).mp hc)

theorem decrypt_encrypt_roundtrip (s : String) (hs : s ≠ "") :
    decrypt_string (encrypt_string s) = some s := by
  have hne : encrypt_string s ≠ "" := encrypt_string_ne_empty s hs
  rw [encrypt_string, if_neg hs] at hne ⊢
  rw [decrypt_string, if_neg hne]
  rw [b64decode_b64encode (.fernet (.utf8 s)) (by simp [Blob.wf])]
  rfl

/-! ### Round trip of the codec pipeline -/
theorem clampLevel_toNat_le (lvl : Int) : (clampLevel lvl).toNat ≤ 9 := by
  rw [clampLevel]
  omega

theorem compress_string_wf (t : CompressionType) (lvl : Int) (s : String) :
    (compress_string t lvl s).wf = true := by
  rw [compress_string]
  split
  · rfl
  · rw [compress_bytes]
    split
    · rfl
    · split
      · rfl
      · simp only [Blob.wf, Bool.and_eq_true, decide_eq_true_eq]
        refine ⟨?_, trivial⟩
        rw [clampLevel]
        omega

theorem decompress_compress_string (t : CompressionType) (lvl : Int) (s : String)
    (hs : s ≠ "") :
    decompress_string t (compress_string t lvl s) = some s := by
  rw [compress_string, if_neg hs, compress_bytes]
  have hne : (Blob.utf8 s).isEmpty = false := by
    simp [Blob.isEmpty, hs]
  rw [if_neg (by simp [hne])]
  by_cases ht : t = .none
  · subst ht
    rw [if_pos rfl, decompress_string, if_neg (by simp [hne]), decompress_bytes,
      if_neg (by simp [hne]), if_pos rfl]
    rfl
  · rw [if_neg ht, decompress_string]
    have hce : (Blob.comp t (clampLevel lvl).toNat (.utf8 s)).isEmpty = false := rfl
    rw [if_neg (by simp [hce]), decompress_bytes, if_neg (by simp [hce]), if_neg ht,
      decompAlgo, if_pos rfl]
    rfl

theorem compress_string_isEmpty_false (t : CompressionType) (lvl : Int) (s : String)
    (hs : s ≠ "") : (compress_string t lvl s).isEmpty = false := by
  rw [compress_string, if_neg hs, compress_bytes,
    if_neg (by simp [Blob.isEmpty, hs])]
  split
  · simp [Blob.isEmpty, hs]
  · rfl

theorem b64encode_ne_empty_of_not_isEmpty (b : Blob) (h : b.isEmpty = false) :
    b64encode b ≠ "" := by
  intro hc
  have := (b64encode_eq_empty_iff b).mp hc
  cases b with
  | utf8 s =>
    rw [b64encodeChars] at this
    split at this
    · next hs => simp [Blob.isEmpty, hs] at h
    · cases this
  | comp t lvl b => exact b64encodeChars_ne_nil_comp t lvl b this
  | fernet b => exact b64encodeChars_ne_nil_fernet b this

theorem secure_data_eq_payload (st : SecurityState) (v : Value) (hv : v ≠ .null) :
    secure_data st v = secure_payload st (serializeValue v) := by
  cases v with
  | null => exact absurd rfl hv
  | bool b => rfl
  | int n => rfl
  | str s => rfl
  | list xs => rfl
  | dict kvs => rfl

theorem secure_payload_processed_ne_empty (st : SecurityState) (j : String)
    (hj : j ≠ "") :
    (if st.enable_compression then
      b64encode (compress_string st.compression_type st.compression_level j)
    else j) ≠ "" := by
  split
  · exact b64encode_ne_empty_of_not_isEmpty _
      (compress_string_isEmpty_false _ _ _ hj)
  · exact hj

theorem secure_payload_ne_empty (st : SecurityState) (j : String) (hj : j ≠ "") :
    secure_payload st j ≠ "" := by
  rw [secure_payload]
  have hp := secure_payload_processed_ne_empty st j hj
  split
  · exact encrypt_string_ne_empty _ hp
  · exact hp

/-- The first fallback attempt (the active configuration) succeeds on data the
active configuration just encoded, and returns the parse-or-string of the
serialized text. -/
theorem tryAttempt_active (st : SecurityState) (json_data : String)
    (hj : json_data ≠ "") :
    tryAttempt st.compression_type st.enable_encryption st.enable_compression
      (secure_payload st json_data) = some (parseOrStr json_data) := by
  have hb : b64encode (compress_string st.compression_type st.compression_level
      json_data) ≠ "" :=
    b64encode_ne_empty_of_not_isEmpty _ (compress_string_isEmpty_false _ _ _ hj)
  cases he : st.enable_encryption with
  | true =>
    cases hc : st.enable_compression with
    | true =>
      have hpay : secure_payload st json_data =
          encrypt_string (b64encode (compress_string st.compression_type
            st.compression_level json_data)) := by
        simp [secure_payload, he, hc]
      simp [tryAttempt, hpay, decrypt_encrypt_roundtrip _ hb,
        b64decode_b64encode _
          (compress_string_wf st.compression_type st.compression_level json_data),
        decompress_compress_string st.compression_type st.compression_level json_data hj]
    | false =>
      have hpay : secure_payload st json_data = encrypt_string json_data := by
        simp [secure_payload, he, hc]
      simp [tryAttempt, hpay, decrypt_encrypt_roundtrip _ hj]
  | false =>
    cases hc : st.enable_compression with
    | true =>
      have hpay : secure_payload st json_data =
          b64encode (compress_string st.compression_type
            st.compression_level json_data) := by
        simp [secure_payload, he, hc]
      simp [tryAttempt, hpay,
        b64decode_b64encode _
          (compress_string_wf st.compression_type st.compression_level json_data),
        decompress_compress_string st.compression_type st.compression_level json_data hj]
    | false =>
      have hpay : secure_payload st json_data = json_data := by
        simp [secure_payload, he, hc]
      simp [tryAttempt, hpay]

theorem serializeValue_eq_dumps (v : Value) (h : roundValue v = true)
    (hn : v ≠ .null) : serializeValue v = jsonDumps v := by
  cases v with
  | null => exact absurd rfl hn
  | int n => rfl
  | list xs => rfl
  | dict kvs => rfl
  | bool b => exact absurd h (by simp [roundValue])
  | str s => exact absurd h (by simp [roundValue])

theorem jsonDumps_ne_empty (v : Value) : jsonDumps v ≠ "" := by
  obtain ⟨c, cs, hdc, _, _, _⟩ := dumps_head v
  intro hc
  have hdata : (jsonDumps v).data = [] := (string_eq_empty_iff _).mp hc
  have : dumpsVal v = [] := hdata
  rw [hdc] at this
  cases this

/-- Round trip of the secure codec pipeline for `None`, integer, list and dict
values, under every configuration (encryption on/off × compression on/off ×
any compression type × any level). -/
theorem unsecure_secure_roundtrip (st : SecurityState) (v : Value)
    (hv : roundValue v = true) :
    unsecure_data st (secure_data st v) = v := by
  by_cases hn : v = .null
  · subst hn
    rfl
  · have hj := jsonDumps_ne_empty v
    have hsd : secure_data st v = secure_payload st (jsonDumps v) := by
      rw [secure_data_eq_payload st v hn, serializeValue_eq_dumps v hv hn]
    rw [hsd, unsecure_data, if_neg (secure_payload_ne_empty st _ hj)]
    rw [unsecureAttempts, attemptLoop, tryAttempt_active st _ hj]
    simp [parseOrStr, jsonLoads_jsonDumps]

/-- The unmodified payload always verifies against its own checksum
(first half of the checksum-sensitivity property). -/
theorem verify_hash_calculate_hash (data : List Nat) :
    verify_hash data (calculate_hash data) = true := by
  simp [verify_hash]

/-! ### Supporting lemmas for the claims -/
/-- The source's candidate iteration computes exactly the claim's candidate
pipeline. -/
theorem tryAttempt_eq_specCandidate (t : CompressionType) (e c : Bool)
    (s : String) : tryAttempt t e c s = specCandidate t e c s := by
  rw [tryAttempt, specCandidate]
  cases (if e then decrypt_string s else some s) with
  | none => rfl
  | some processed =>
    simp only [Option.some_bind]
    cases (if c then (b64decode processed).bind (decompress_string t)
           else some processed) with
    | none => rfl
    | some json_data => rfl

/-- The fallback loop is the first-success scan of the candidate list. -/
theorem attemptLoop_eq_findSome (t : CompressionType) (s : String)
    (l : List (Bool × Bool)) :
    attemptLoop t s l = l.findSome? (fun p => tryAttempt t p.1 p.2 s) := by
  induction l with
  | nil => rfl
  | cons p rest ih =>
    obtain ⟨e, c⟩ := p
    rw [attemptLoop, List.findSome?]
    cases tryAttempt t e c s with
    | none => simpa using ih
    | some v => rfl

/-- The `(False, False)` candidate always succeeds: decode is total. -/
theorem tryAttempt_plain (t : CompressionType) (s : String) :
    tryAttempt t false false s = some (parseOrStr s) := by
  simp [tryAttempt]

theorem blob_isEmpty_iff (b : Blob) : b.isEmpty = true ↔ b = .utf8 "" := by
  cases b with
  | utf8 s => simp [Blob.isEmpty]
  | comp t lvl b => simp [Blob.isEmpty]
  | fernet b => simp [Blob.isEmpty]

theorem clampLevel_idem (L : Int) : clampLevel (clampLevel L) = clampLevel L := by
  simp only [clampLevel]
  omega

/-- The `.2.sec` of `update_security_settings` is always the merged
configuration, whether or not the re-save happens or succeeds. -/
theorem update_security_settings_sec (readOk writeOk : Bool) (st : DBState)
    (e c k : Option Bool) :
    (update_security_settings readOk writeOk st e c k).2.sec =
      { st.sec with
        enable_encryption := e.getD st.sec.enable_encryption
        enable_compression := c.getD st.sec.enable_compression
        enable_checksums := k.getD st.sec.enable_checksums } := by
  rw [update_security_settings]
  cases load_app_data readOk st with
  | nil => rfl
  | cons kv rest =>
    rw [save_app_data]
    cases writeOk <;> rfl

theorem compress_dict_ne_empty_b64 (t : CompressionType) (lvl : Int)
    (k : String) (v : Value) (kvs : List (String × Value)) :
    b64encode (compress_dict t lvl ((k, v) :: kvs)) ≠ "" := by
  rw [compress_dict]
  · exact b64encode_ne_empty_of_not_isEmpty _
      (compress_string_isEmpty_false _ _ _ (jsonDumps_ne_empty (.dict ((k, v) :: kvs))))
  · exact fun h => List.noConfusion h

/-! ### Claim theorems -/
/-- Claim C1 (amended).  The round-trip
`_unsecure_data(_secure_data(v)) == v` under an unchanged configuration holds
for every map, list, integer and `None` value, under every configuration
(encryption on/off × compression on/off × compression type in
\{gzip, bzip2, lzma, zlib, none\} × any level).  As stated over *all* values
the claim is false for strings (see the counterexample: a string whose text
parses as JSON decodes to the parsed value, and `""` decodes to `None`) and
for booleans (stringified by `str`). -/
theorem claim_C1_roundtrip_amended (st : SecurityState) (v : Value)
    (hv : roundValue v = true) :
    unsecure_data st (secure_data st v) = v :=
  unsecure_secure_roundtrip st v hv

/-- Claim C1 witness: the amended round trip at the default configuration on a
nested dict. -/
theorem claim_C1_roundtrip_amended_witness :
    roundValue (.dict [("a", .int 1), ("xs", .list [.int 1, .int 2])]) = true ∧
    unsecure_data defaultSecurityState
      (secure_data defaultSecurityState
        (.dict [("a", .int 1), ("xs", .list [.int 1, .int 2])])) =
      .dict [("a", .int 1), ("xs", .list [.int 1, .int 2])] :=
  ⟨rfl, claim_C1_roundtrip_amended defaultSecurityState _ rfl⟩

/-- Claim C1 counterexample.  The claim as stated quantifies over every value
including unicode strings: the string `"123"` does not round-trip — under the
default configuration (and every other) it decodes to the *number* 123,
because decode re-parses the stored text. -/
theorem claim_C1_roundtrip_counterexample :
    unsecure_data defaultSecurityState
      (secure_data defaultSecurityState (.str "123")) = .int 123 ∧
    Value.int 123 ≠ Value.str "123" := by
  constructor
  · have hj : ("123" : String) ≠ "" := by decide
    have hsd : secure_data defaultSecurityState (.str "123") =
        secure_payload defaultSecurityState "123" := rfl
    rw [hsd, unsecure_data,
      if_neg (secure_payload_ne_empty defaultSecurityState _ hj),
      unsecureAttempts, attemptLoop, tryAttempt_active defaultSecurityState _ hj]
    have : parseOrStr "123" = .int 123 := by
      rw [parseOrStr]
      simp [jsonLoads, pVal, pValCore, pNumTail, takeDigits, skipWs, isWsChar,
        isDigitChar, digitsToNat, digitVal]
    rw [this]
  · intro h
    cases h

/-- Claim C2 (amended).  An empty stored payload — the stored encoding of
`None` — decodes to `None` by a short-circuit *before* any candidate is tried.
For every other payload, `_unsecure_data` equals the ordered first-success
search over exactly the four candidate configurations, in source order:
(a) the active `(enable_encryption, enable_compression)`, (b) encryption
disabled, (c) compression disabled, (d) neither — where each candidate
attempts decrypt-if-flagged, then base64-decode-and-decompress-if-flagged,
then parses the canonical text (`json.loads`, with text that is not JSON
standing for itself as a plain string value); failed candidates are discarded
silently, and only if all four fail does the final raw fallback run. -/
theorem claim_C2_candidate_order_amended (st : SecurityState) (s : String) :
    unsecure_data st s =
      if s = "" then .null
      else
        match [(st.enable_encryption, st.enable_compression),
               (false, st.enable_compression),
               (st.enable_encryption, false),
               ((false : Bool), (false : Bool))].findSome?
            (fun p => specCandidate st.compression_type p.1 p.2 s) with
        | some v => v
        | Option.none => parseOrStr s := by
  by_cases hs : s = ""
  · rw [unsecure_data, if_pos hs, if_pos hs]
  · rw [unsecure_data, if_neg hs, if_neg hs, attemptLoop_eq_findSome]
    have hc : ∀ p : Bool × Bool,
        (fun p : Bool × Bool => tryAttempt st.compression_type p.1 p.2 s) p =
          (fun p : Bool × Bool => specCandidate st.compression_type p.1 p.2 s) p :=
      fun p => tryAttempt_eq_specCandidate st.compression_type p.1 p.2 s
    rw [funext hc]
    rfl

/-- Claim C2 counterexample.  The claim quantifies over every stored payload,
but at the empty payload — the stored encoding of `None` — it is false:
`_unsecure_data` returns `None` by the empty-payload short-circuit without
trying any candidate, while the claimed four-candidate search succeeds
already at candidate (a) (`decrypt_string` and the decompress step both
short-circuit empty input, and `json.loads('')` fails so the text stands for
itself) and would return the empty *string* value instead. -/
theorem claim_C2_candidate_order_counterexample :
    unsecure_data defaultSecurityState "" = .null ∧
    (match [(defaultSecurityState.enable_encryption,
             defaultSecurityState.enable_compression),
            (false, defaultSecurityState.enable_compression),
            (defaultSecurityState.enable_encryption, false),
            ((false : Bool), (false : Bool))].findSome?
        (fun p => specCandidate defaultSecurityState.compression_type p.1 p.2 "")
      with
     | some v => v
     | Option.none => parseOrStr "") = .str "" ∧
    Value.null ≠ Value.str "" := by
  refine ⟨rfl, ?_, fun h => by cases h⟩
  simp [specCandidate, defaultSecurityState, decrypt_string, b64decode,
    b64decodeChars, decompress_string, Blob.isEmpty, parseOrStr, jsonLoads,
    pVal, pValCore, skipWs, isWsChar, isDigitChar, dropLit, List.findSome?]

/-- Claim C3 (code bug).  At the failing input — a stored payload that no
candidate can decrypt, decompress or parse as JSON — decode does *not* fail:
the plain candidate `(False, False)` parses the raw text, its `json.loads`
failure falls back to returning the text as a string value, and so
`load_app_data` returns the key bound to the garbage string instead of
omitting it.  Decode is total, the source's final raw fallback and the
`# Skip corrupted data entries` branch of `load_app_data` are unreachable,
and no key is ever omitted. -/
theorem claim_C3_decode_never_fails :
    unsecure_data defaultSecurityState "gArBaGe##" = .str "gArBaGe##" ∧
    load_app_data true
        { sec := defaultSecurityState, rows := [("bad", "gArBaGe##")] } =
      [("bad", .str "gArBaGe##")] := by
  have h1 : unsecure_data defaultSecurityState "gArBaGe##" = .str "gArBaGe##" := by
    simp [unsecure_data, unsecureAttempts, attemptLoop, tryAttempt, parseOrStr,
      defaultSecurityState, decrypt_string, b64decode, b64decodeChars, jsonLoads,
      pVal, pValCore, skipWs, isWsChar, isDigitChar, dropLit]
  exact ⟨h1, by simp [load_app_data, h1]⟩

/-- Claim C4 counterexample.  With one stored row, calling
`update_security_settings(encryption=False)` while the re-save fails returns
failure — but the manager's `enable_encryption` toggle has already been
flipped to `False` and is not rolled back, so the old configuration is *not*
authoritative after the failed call, contradicting the claim. -/
theorem claim_C4_counterexample :
    (update_security_settings true false
        { sec := defaultSecurityState, rows := [("k", "v")] }
        (some false) Option.none Option.none).1 = false ∧
    (update_security_settings true false
        { sec := defaultSecurityState, rows := [("k", "v")] }
        (some false) Option.none Option.none).2.sec.enable_encryption = false ∧
    ({ sec := defaultSecurityState, rows := [("k", "v")] } :
        DBState).sec.enable_encryption = true := by
  refine ⟨?_, ?_, rfl⟩
  · rw [update_security_settings]
    simp [load_app_data, save_app_data]
  · rw [update_security_settings_sec]
    rfl

/-- Claim C4 (amended).  When the re-save inside `update_security_settings`
fails (and some data was loaded), the call reports failure and the stored rows
are unchanged (the transaction rolls back) — but the in-memory toggles keep
the requested new values: the source performs no rollback of the
configuration, so the *new* settings, not the old, are authoritative for
subsequent operations. -/
theorem claim_C4_failed_resave_amended (st : DBState)
    (e c k : Option Bool) (h : load_app_data true st ≠ []) :
    update_security_settings true false st e c k =
      (false,
       { st with
         sec :=
           { st.sec with
             enable_encryption := e.getD st.sec.enable_encryption
             enable_compression := c.getD st.sec.enable_compression
             enable_checksums := k.getD st.sec.enable_checksums } }) := by
  rw [update_security_settings]
  cases hd : load_app_data true st with
  | nil => exact absurd hd h
  | cons kv rest => rfl

/-- Claim C4 witness: the amended behaviour at a concrete one-row state with
`encryption=False` requested. -/
theorem claim_C4_failed_resave_amended_witness :
    load_app_data true { sec := defaultSecurityState, rows := [("k", "v")] } ≠ [] ∧
    update_security_settings true false
        { sec := defaultSecurityState, rows := [("k", "v")] }
        (some false) Option.none Option.none =
      (false,
       { sec :=
           { enable_encryption := false
             enable_compression := true
             enable_checksums := true
             compression_type := .gzip
             compression_level := 6 }
         rows := [("k", "v")] }) := by
  have h : load_app_data true
      { sec := defaultSecurityState, rows := [("k", "v")] } ≠ [] := by
    simp [load_app_data]
  refine ⟨h, ?_⟩
  have := claim_C4_failed_resave_amended
    { sec := defaultSecurityState, rows := [("k", "v")] }
    (some false) Option.none Option.none h
  rw [this]
  rfl

/-- Claim C5.  Restore validates before writing: whenever any step of the
decode-and-validate pipeline fails — missing file, undecryptable content,
failed base64/decompress, unparseable manifest, or no dict `app_data` section
— `restore_database` returns failure and the state (all live rows and the
configuration) is exactly unchanged. -/
theorem claim_C5_restore_failure_no_write (writeOk : Bool) (st : DBState)
    (fileContent : Option String)
    (h : restoreManifestAppData st.sec.compression_type fileContent = Option.none) :
    restore_database writeOk fileContent st = (false, st) := by
  cases fileContent with
  | none => rfl
  | some content =>
    rw [restoreManifestAppData] at h
    simp only [Option.some_bind] at h
    rw [restore_database]
    simp only [BACKUP_ENCRYPTION, BACKUP_COMPRESSION, ite_true]
    cases hdec : decrypt_string content with
    | none => rfl
    | some c1 =>
      simp only []
      rw [hdec, Option.some_bind] at h
      cases hparse : ((b64decode c1).bind
          (decompress_string st.sec.compression_type)).bind jsonLoads with
      | none => rfl
      | some bd =>
        simp only []
        rw [hparse, Option.some_bind] at h
        cases bd with
        | dict kvs =>
          simp only []
          simp only [] at h
          cases hlk : List.lookup "app_data" kvs with
          | none => simp [hlk]
          | some av =>
            cases av with
            | dict app => rw [hlk] at h; simp at h
            | null => simp [hlk]
            | bool b => simp [hlk]
            | int n => simp [hlk]
            | str s2 => simp [hlk]
            | list xs => simp [hlk]
        | null => rfl
        | bool b => rfl
        | int n => rfl
        | str s2 => rfl
        | list xs => rfl

/-- Claim C5 witness: a missing backup file fails the first step and leaves a
concrete state untouched. -/
theorem claim_C5_restore_failure_no_write_witness :
    restoreManifestAppData
        ({ sec := defaultSecurityState, rows := [("k", "v")] } :
          DBState).sec.compression_type Option.none = Option.none ∧
    restore_database true Option.none
        { sec := defaultSecurityState, rows := [("k", "v")] } =
      (false, { sec := defaultSecurityState, rows := [("k", "v")] }) :=
  ⟨rfl, claim_C5_restore_failure_no_write true _ Option.none rfl⟩

/-- Claim C6.  With the default bound of 5 attempts and base delay 100 ms:
(1) if every acquisition reports "database is locked", the manager makes
exactly 5 attempts, sleeping 100, 200, 400, 800 ms between consecutive
attempts (doubling per attempt), and then surfaces the lock error instead of
hanging; (2) any other acquisition error at attempt `k` propagates immediately
— the error surfaces after `k + 1` attempts with no further retries, having
slept only the backoffs of the earlier locked attempts. -/
theorem claim_C6_retry_contract :
    (∀ env : Nat → ConnOutcome, (∀ i, env i = .locked) →
      get_connection_with_retry env =
        (.lockedError, 5, [100, 200, 400, 800])) ∧
    (∀ env : Nat → ConnOutcome, ∀ k, k < 5 → (∀ i, i < k → env i = .locked) →
      env k = .otherErr →
      get_connection_with_retry env =
        (.otherError, k + 1, (List.range k).map (fun i => 100 * 2 ^ i))) := by
  constructor
  · intro env h
    rw [get_connection_with_retry]
    simp only [defaultMaxRetries, defaultRetryDelayMs]
    rw [retryGo, h 0]
    norm_num
    rw [retryGo, h 1]
    norm_num
    rw [retryGo, h 2]
    norm_num
    rw [retryGo, h 3]
    norm_num
    rw [retryGo, h 4]
    norm_num
  · intro env k hk hlock hother
    rw [get_connection_with_retry]
    simp only [defaultMaxRetries, defaultRetryDelayMs]
    interval_cases k
    · rw [retryGo, hother]
      simp
    · rw [retryGo, hlock 0 (by omega)]
      norm_num
      rw [retryGo, hother]
      norm_num [List.range_succ]
    · rw [retryGo, hlock 0 (by omega)]
      norm_num
      rw [retryGo, hlock 1 (by omega)]
      norm_num
      rw [retryGo, hother]
      norm_num [List.range_succ]
    · rw [retryGo, hlock 0 (by omega)]
      norm_num
      rw [retryGo, hlock 1 (by omega)]
      norm_num
      rw [retryGo, hlock 2 (by omega)]
      norm_num
      rw [retryGo, hother]
      norm_num [List.range_succ]
    · rw [retryGo, hlock 0 (by omega)]
      norm_num
      rw [retryGo, hlock 1 (by omega)]
      norm_num
      rw [retryGo, hlock 2 (by omega)]
      norm_num
      rw [retryGo, hlock 3 (by omega)]
      norm_num
      rw [retryGo, hother]
      norm_num [List.range_succ]

/-- Claim C6 witness: the always-locked environment exhausts exactly 5
attempts with backoffs 100, 200, 400, 800 ms; an immediate non-lock error
surfaces after one attempt with no sleeps. -/
theorem claim_C6_retry_contract_witness :
    get_connection_with_retry (fun _ => .locked) =
      (.lockedError, 5, [100, 200, 400, 800]) ∧
    get_connection_with_retry (fun _ => .otherErr) =
      (.otherError, 1, []) := by
  constructor
  · exact claim_C6_retry_contract.1 (fun _ => .locked) (fun _ => rfl)
  · have := claim_C6_retry_contract.2 (fun _ => .otherErr) 0 (by omega)
      (fun i hi => absurd hi (by omega)) rfl
    simpa using this

/-- Claim C7.  A backup with no destination is written to
`backups/backup_<timestamp>.bms`, and its content is the manifest
`\x7btimestamp, version "1.0", app_data, security_metadata\x7d` serialized
once (`json.dumps` inside `compress_dict`), compressed as one unit, encrypted
as one unit, with base64 as the outermost text-safe layer of the artifact:
the written text is literally `b64encode` of the Fernet token of the
(base64-wrapped) compressed manifest. -/
theorem claim_C7_backup_format (st : DBState) (ts_file ts_iso : String)
    (stats : Value) :
    backup_database st ts_file ts_iso stats Option.none =
      ("backups/backup_" ++ ts_file ++ ".bms",
       b64encode (.fernet (.utf8 (b64encode
         (compress_dict st.sec.compression_type st.sec.compression_level
           [("timestamp", .str ts_iso),
            ("version", .str "1.0"),
            ("app_data", .dict (load_app_data true st)),
            ("security_metadata", stats)]))))) := by
  rw [backup_database]
  simp only [BACKUP_ENCRYPTION, BACKUP_COMPRESSION, ite_true]
  rw [encrypt_string,
    if_neg (compress_dict_ne_empty_b64 st.sec.compression_type
      st.sec.compression_level "timestamp" (.str ts_iso) _)]

/-- Claim C9.  For every byte buffer and every integer level: with compression
type `none`, `compress_bytes` and `decompress_bytes` are the identity
passthrough (decompression succeeding with the input itself); and for every
compression type, a level outside `[1, 9]` is clamped with
`max(1, min(9, L))` before reaching the underlying algorithm, so compressing
at `L` equals compressing at the clamped level. -/
theorem claim_C9_compression_contract (d : Blob) (L : Int) :
    compress_bytes .none L d = d ∧
    decompress_bytes .none d = some d ∧
    ∀ t : CompressionType, compress_bytes t L d = compress_bytes t (clampLevel L) d := by
  refine ⟨?_, ?_, ?_⟩
  · rw [compress_bytes]
    by_cases hd : d.isEmpty = true
    · rw [if_pos hd, (blob_isEmpty_iff d).mp hd]
    · rw [if_neg hd, if_pos rfl]
  · rw [decompress_bytes]
    by_cases hd : d.isEmpty = true
    · rw [if_pos hd, (blob_isEmpty_iff d).mp hd]
    · rw [if_neg hd, if_pos rfl]
  · intro t
    rw [compress_bytes, compress_bytes, clampLevel_idem]

/-- Claim C10.  `update_security_settings` changes at most the three boolean
toggles: every toggle passed as `None` keeps its previous value, and the
configuration's compression type and compression level are never modified,
whatever the arguments and whether or not the re-save runs or succeeds — as
observable through `get_current_security_config`. -/
theorem claim_C10_settings_frame (readOk writeOk : Bool) (st : DBState)
    (e c k : Option Bool) :
    (e = Option.none →
      (update_security_settings readOk writeOk st e c k).2.sec.enable_encryption =
        st.sec.enable_encryption) ∧
    (c = Option.none →
      (update_security_settings readOk writeOk st e c k).2.sec.enable_compression =
        st.sec.enable_compression) ∧
    (k = Option.none →
      (update_security_settings readOk writeOk st e c k).2.sec.enable_checksums =
        st.sec.enable_checksums) ∧
    (update_security_settings readOk writeOk st e c k).2.sec.compression_type =
      st.sec.compression_type ∧
    (update_security_settings readOk writeOk st e c k).2.sec.compression_level =
      st.sec.compression_level ∧
    List.lookup "compression_type"
        (get_current_security_config
          (update_security_settings readOk writeOk st e c k).2) =
      List.lookup "compression_type" (get_current_security_config st) := by
  rw [update_security_settings_sec readOk writeOk st e c k]
  refine ⟨?_, ?_, ?_, rfl, rfl, ?_⟩
  · intro he; rw [he]; rfl
  · intro hc; rw [hc]; rfl
  · intro hk; rw [hk]; rfl
  · rw [get_current_security_config, get_current_security_config,
      update_security_settings_sec readOk writeOk st e c k]
    rfl

/-- Claim C10 witness: at a concrete state with all three arguments `None`,
nothing observable changes. -/
theorem claim_C10_settings_frame_witness :
    (update_security_settings true true
        { sec := defaultSecurityState, rows := [("k", "v")] }
        Option.none Option.none Option.none).2.sec.enable_encryption = true ∧
    (update_security_settings true true
        { sec := defaultSecurityState, rows := [("k", "v")] }
        Option.none Option.none Option.none).2.sec.compression_type = .gzip ∧
    (update_security_settings true true
        { sec := defaultSecurityState, rows := [("k", "v")] }
        Option.none Option.none Option.none).2.sec.compression_level = 6 := by
  obtain ⟨h1, h2, h3, h4, h5, h6⟩ := claim_C10_settings_frame true true
    { sec := defaultSecurityState, rows := [("k", "v")] }
    Option.none Option.none Option.none
  exact ⟨h1 rfl, h4, h5⟩

end BMS

